import Mathlib

/-!
Verification of the numeric core of `virtualhe_rust` (`src/main.rs`).

The program converts two co-registered grayscale fluorescence channels into a
synthetic H&E RGB image in two stages:

* `apply_histogram_scaling` (the normalizer): flattens the pixel grid, sorts the
  values ascending, selects the value at index
  `min(((percentile / 100) * len) as usize, len - 1)` as `max_intensity`, and
  maps every pixel `v` to `(v / max_intensity).min(1.0)`.
* `generate_virtual_he` (the compositor): per pixel and RGB channel computes
  `exp(-beta[0][c] * nucleus[i,j] * k) * exp(-beta[1][c] * eosin[i,j] * k)`
  with the fixed attenuation table `beta`, then quantizes each float to `u8` by
  `(v * 255.0).min(255.0) as u8`.

Modelling conventions:

* A pixel grid is modelled by the row-major list of its pixel values; `f32`
  arithmetic is idealized as exact rational (normalizer) or real (compositor)
  arithmetic.  A separate small model `F32` captures the IEEE-754 special values
  (infinity, NaN) reachable through division by a zero threshold.
* Rust panics (index out of bounds, arithmetic underflow) are modelled by
  `Option`: a panicking execution is `none`.
* Image decoding, encoding and the CLI are thin I/O wrappers outside the numeric
  core and are not modelled.
-/

namespace VirtualHE

/-- Ascending sort of the flattened pixel list, modelling
`sorted.sort_by(|a, b| a.partial_cmp(b).unwrap())` in `apply_histogram_scaling`
(on finite values this comparison is the total order on the rationals; any
comparison sort produces the same sorted list). -/
def sortPixels (image : List ℚ) : List ℚ :=
  image.insertionSort (fun a b => a ≤ b)

/-- The saturation threshold selected by `apply_histogram_scaling`:
`let threshold_index = ((percentile / 100.0) * (sorted.len() as f32)) as usize;`
`let max_intensity = sorted[threshold_index.min(sorted.len() - 1)];`
Rust's float-to-`usize` `as` cast truncates toward zero and saturates below at 0,
which on exact values is `Int.toNat ∘ Int.floor`.  On an empty grid the code
panics (`sorted.len() - 1` underflows in debug builds, and the index
`sorted[0]` is out of bounds in release builds), modelled by `none`; on a
non-empty grid the clamped index is always in bounds, so the `getD` default is
never used. -/
def max_intensity (image : List ℚ) (percentile : ℚ) : Option ℚ :=
  let sorted := sortPixels image
  if sorted.isEmpty then none
  else
    let threshold_index : ℕ := (⌊percentile / 100 * (sorted.length : ℚ)⌋).toNat
    some (sorted.getD (min threshold_index (sorted.length - 1)) 0)

/-- The per-pixel closure `|v| (v / max_intensity).min(1.0)` passed to
`par_mapv_inplace` in `apply_histogram_scaling`. -/
def scale_pixel (max_intensity v : ℚ) : ℚ :=
  min (v / max_intensity) 1

/-- `apply_histogram_scaling` over exact arithmetic: select the threshold, then
rescale every pixel; `none` models the panic on an empty grid. -/
def apply_histogram_scaling (image : List ℚ) (percentile : ℚ) : Option (List ℚ) :=
  (max_intensity image percentile).map (fun m => image.map (scale_pixel m))

/-- Model of an `f32` value distinguishing the IEEE-754 special values reachable
in `apply_histogram_scaling` when the selected threshold is zero.  The sign of
zero is not modelled (it is irrelevant to the operations used: the pixel values
are non-negative). -/
inductive F32 where
  | fin (q : ℚ)
  | inf
  | neginf
  | nan
  deriving DecidableEq

/-- IEEE-754 division on `F32`: finite by nonzero finite is exact; positive by
zero is `inf`, negative by zero is `neginf`, zero by zero is `NaN`; divisions
involving infinities follow IEEE-754. -/
def F32.div : F32 → F32 → F32
  | .fin a, .fin b =>
    if b ≠ 0 then .fin (a / b)
    else if 0 < a then .inf
    else if a < 0 then .neginf
    else .nan
  | .fin _, .inf => .fin 0
  | .fin _, .neginf => .fin 0
  | .inf, .fin b => if b < 0 then .neginf else .inf
  | .neginf, .fin b => if b < 0 then .inf else .neginf
  | .inf, .inf => .nan
  | .inf, .neginf => .nan
  | .neginf, .inf => .nan
  | .neginf, .neginf => .nan
  | .nan, _ => .nan
  | _, .nan => .nan

/-- Rust `f32::min`: if one argument is NaN the other argument is returned,
otherwise the numeric minimum (with `-inf` below every finite value and `inf`
above every finite value). -/
def F32.min : F32 → F32 → F32
  | .nan, b => b
  | a, .nan => a
  | .neginf, _ => .neginf
  | _, .neginf => .neginf
  | .inf, b => b
  | a, .inf => a
  | .fin a, .fin b => .fin (Min.min a b)

/-- `apply_histogram_scaling` with the per-pixel map `(v / max_intensity).min(1.0)`
evaluated under IEEE-754 special-value semantics.  The input pixels are finite
(decoded images are); the sort and threshold selection on finite values agree
with the exact model, so `max_intensity` is reused. -/
def apply_histogram_scaling_ieee (image : List ℚ) (percentile : ℚ) :
    Option (List F32) :=
  (max_intensity image percentile).map
    (fun m => image.map (fun v => F32.min (F32.div (.fin v) (.fin m)) (.fin 1)))

/-- A two-dimensional pixel grid `Array2<f32>`: its dimensions and its values
(total as a function; only indices `i < nrows`, `j < ncols` are meaningful). -/
structure Array2 where
  nrows : ℕ
  ncols : ℕ
  val : ℕ → ℕ → ℝ

/-- The fixed attenuation coefficient table `beta_values` of
`generate_virtual_he`: row 0 is hematoxylin (nucleus), row 1 is eosin; columns
are (R, G, B).  The decimal literals denote the exact rational constants. -/
noncomputable def beta_values : Fin 2 → Fin 3 → ℝ :=
  ![![0.860, 1.000, 0.300], ![0.050, 1.000, 0.544]]

/-- The float written to `rgb[[i, j, channel]]` by the parallel loop of
`generate_virtual_he`, mirroring its `match channel` with one arm per output
channel (the `unreachable!()` arm is junk value 0). -/
noncomputable def rgbFloat (nucleus eosin : Array2) (k : ℝ) (i j : ℕ)
    (channel : Fin 3) : ℝ :=
  match channel.val with
  | 0 => Real.exp (-beta_values 0 0 * nucleus.val i j * k) *
      Real.exp (-beta_values 1 0 * eosin.val i j * k)
  | 1 => Real.exp (-beta_values 0 1 * nucleus.val i j * k) *
      Real.exp (-beta_values 1 1 * eosin.val i j * k)
  | 2 => Real.exp (-beta_values 0 2 * nucleus.val i j * k) *
      Real.exp (-beta_values 1 2 * eosin.val i j * k)
  | _ => 0

/-- Rust saturating cast `as u8` applied to a float: truncate toward zero and
clamp to `[0, 255]`.  Truncation equals `Int.floor` for non-negative arguments,
and negative arguments clamp to 0 under both truncation and flooring, so
`Int.toNat` of the clamped floor is a faithful model on the reals. -/
noncomputable def f32_as_u8 (x : ℝ) : ℕ :=
  (Min.min ⌊x⌋ 255).toNat

/-- The quantization map `|v| (v * 255.0).min(255.0) as u8` from the line
`let rgb_uint8 = rgb.mapv(...)` of `generate_virtual_he`. -/
noncomputable def quantize (v : ℝ) : ℕ :=
  f32_as_u8 (Min.min (v * 255) 255)

/-- Numeric core of `generate_virtual_he`: the quantized `rgb_uint8` grid, of
shape `(nucleus.nrows, nucleus.ncols, 3)`.  The source performs no shape
comparison between the two grids; it simply indexes `eosin[[i, j]]` for every
`(i, j)` of the nucleus shape, and `ndarray` indexing panics when such an index
is out of bounds for `eosin` — that panic is modelled by `none`.  Saving the
image to disk is I/O and out of scope. -/
noncomputable def generate_virtual_he (nucleus eosin : Array2) (k : ℝ) :
    Option (ℕ → ℕ → Fin 3 → ℕ) :=
  if ∀ i < nucleus.nrows, ∀ j < nucleus.ncols, i < eosin.nrows ∧ j < eosin.ncols then
    some (fun i j channel => quantize (rgbFloat nucleus eosin k i j channel))
  else none

/-! ### Helper lemmas -/

/-- Quantization never exceeds 255. -/
theorem quantize_le_255 (v : ℝ) : quantize v ≤ 255 := by
  unfold quantize f32_as_u8
  have h : Min.min ⌊Min.min (v * 255) 255⌋ 255 ≤ (255 : ℤ) := min_le_right _ _
  omega

/-- On a non-empty grid the threshold selection succeeds. -/
theorem max_intensity_isSome (image : List ℚ) (percentile : ℚ) (himg : image ≠ []) :
    (max_intensity image percentile).isSome = true := by
  have hlen : (sortPixels image).length = image.length :=
    (List.perm_insertionSort _ image).length_eq
  have hne : (sortPixels image).isEmpty = false := by
    rw [List.isEmpty_eq_false]
    intro h
    exact himg (List.length_eq_zero.mp (by rw [← hlen, h]; rfl))
  simp only [max_intensity, hne]
  rfl

/-! ### Claims -/

/-- C6: for every non-negative input grid whose selected threshold is strictly
positive, every value of the normalized output grid lies in `[0, 1]`. -/
theorem normalization_bounded (image : List ℚ) (percentile m : ℚ) (out : List ℚ)
    (hm : max_intensity image percentile = some m) (hpos : 0 < m)
    (hnn : ∀ v ∈ image, 0 ≤ v)
    (hout : apply_histogram_scaling image percentile = some out) :
    ∀ v ∈ out, 0 ≤ v ∧ v ≤ 1 := by
  rw [apply_histogram_scaling, hm, Option.map_some'] at hout
  obtain rfl : image.map (scale_pixel m) = out := by injection hout
  intro v hv
  obtain ⟨w, hw, rfl⟩ := List.mem_map.mp hv
  unfold scale_pixel
  exact ⟨le_min (div_nonneg (hnn w hw) hpos.le) zero_le_one, min_le_right _ _⟩

/-- Witness for C6 at the grid `[1, 2]` with percentile 50 (threshold 2). -/
theorem normalization_bounded_witness : (0 : ℚ) ≤ 1/2 ∧ (1/2 : ℚ) ≤ 1 := by
  have h := normalization_bounded [1, 2] 50 2 [1/2, 1]
    (by norm_num [max_intensity, sortPixels, List.insertionSort, List.orderedInsert, List.getD])
    (by norm_num)
    (by intro v hv; fin_cases hv <;> norm_num)
    (by norm_num [apply_histogram_scaling, max_intensity, sortPixels, List.insertionSort,
      List.orderedInsert, List.getD, scale_pixel])
  exact h (1/2) (by norm_num)

/-- C7: with a positive selected threshold, the per-pixel normalization map is
monotone: `a ≤ b` implies `scale_pixel m a ≤ scale_pixel m b`. -/
theorem normalization_monotone (image : List ℚ) (percentile m : ℚ)
    (hm : max_intensity image percentile = some m) (hpos : 0 < m)
    (a b : ℚ) (hab : a ≤ b) :
    scale_pixel m a ≤ scale_pixel m b := by
  unfold scale_pixel
  exact min_le_min (div_le_div_of_nonneg_right hab hpos.le) le_rfl

/-- Witness for C7 at the grid `[1, 2]`, threshold 2, pixel pair `1 ≤ 3/2`. -/
theorem normalization_monotone_witness : scale_pixel 2 1 ≤ scale_pixel 2 (3/2) :=
  normalization_monotone [1, 2] 50 2
    (by norm_num [max_intensity, sortPixels, List.insertionSort, List.orderedInsert, List.getD])
    (by norm_num) 1 (3/2) (by norm_num)

/-- C8: quantization is `Int.floor` of the clamped scaled value (truncation, not
round-to-nearest); any float value `≥ 1.0` maps to exactly 255; and the result
never exceeds the 8-bit range. -/
theorem quantization_truncates_and_clamps :
    (∀ v : ℝ, 0 ≤ v → quantize v = (⌊Min.min (v * 255) 255⌋).toNat)
      ∧ (∀ v : ℝ, 1 ≤ v → quantize v = 255)
      ∧ (∀ v : ℝ, quantize v ≤ 255) := by
  refine ⟨?_, ?_, fun v => quantize_le_255 v⟩
  · intro v hv
    unfold quantize f32_as_u8
    have h255 : Min.min (v * 255) 255 ≤ (255 : ℝ) := min_le_right _ _
    have hfl : ⌊Min.min (v * 255) 255⌋ ≤ (255 : ℤ) := by
      have := Int.floor_le_floor h255
      simpa using this
    rw [min_eq_left hfl]
  · intro v hv
    have hm : Min.min (v * 255) 255 = (255 : ℝ) := min_eq_right (by nlinarith)
    unfold quantize f32_as_u8
    rw [hm]
    norm_num
    omega

/-- Witness for C8 at `v = 1`. -/
theorem quantization_truncates_and_clamps_witness :
    (0 : ℝ) ≤ 1 ∧ quantize 1 = 255 :=
  ⟨zero_le_one, quantization_truncates_and_clamps.2.1 1 le_rfl⟩

/-- C10: on an empty grid `apply_histogram_scaling` panics (modelled by `none`);
on every non-empty grid it returns a grid. -/
theorem empty_grid_panics :
    apply_histogram_scaling ([] : List ℚ) 99.999 = none
      ∧ ∀ (image : List ℚ) (percentile : ℚ), image ≠ [] →
        (apply_histogram_scaling image percentile).isSome = true := by
  constructor
  · rfl
  · intro image percentile himg
    have h := max_intensity_isSome image percentile himg
    rw [apply_histogram_scaling]
    obtain ⟨m, hm⟩ := Option.isSome_iff_exists.mp h
    rw [hm, Option.map_some']
    rfl

/-- Witness for C10 at the one-pixel grid `[1]`. -/
theorem empty_grid_panics_witness :
    (apply_histogram_scaling [(1 : ℚ)] 50).isSome = true :=
  empty_grid_panics.2 [1] 50 (by simp)

/-- C9: when the selected threshold is 0 on a non-negative grid, the IEEE-754
evaluation of the per-pixel map produces neither an error nor non-finite
values: division by zero gives `inf` (pixel `> 0`) or `NaN` (pixel `= 0`), and
Rust's `f32::min` with `1.0` collapses both to `1.0`, so every output pixel is
exactly `1.0`. -/
theorem zero_threshold_all_ones (image : List ℚ) (percentile : ℚ)
    (hnn : ∀ v ∈ image, 0 ≤ v)
    (hm : max_intensity image percentile = some 0) :
    apply_histogram_scaling_ieee image percentile
      = some (image.map (fun _ => F32.fin 1)) := by
  rw [apply_histogram_scaling_ieee, hm, Option.map_some']
  congr 1
  apply List.map_congr_left
  intro v hv
  rcases lt_or_eq_of_le (hnn v hv) with h | h
  · have hv0 : ¬(0 : ℚ) ≠ 0 := by simp
    simp only [F32.div, if_neg hv0, if_pos h]
    rfl
  · have hv0 : ¬(0 : ℚ) ≠ 0 := by simp
    rw [← h]
    simp only [F32.div, if_neg hv0, lt_irrefl, if_neg (lt_irrefl 0)]
    rfl

/-- Witness for C9 at the all-zero grid `[0, 0]`. -/
theorem zero_threshold_all_ones_witness :
    apply_histogram_scaling_ieee [(0 : ℚ), 0] 99.999 = some [F32.fin 1, F32.fin 1] := by
  have h := zero_threshold_all_ones [(0 : ℚ), 0] 99.999
    (by intro v hv; fin_cases hv <;> norm_num)
    (by norm_num [max_intensity, sortPixels, List.insertionSort, List.orderedInsert, List.getD])
  simpa using h

/-- C1 counterexample: on grids of shapes `(10, 10)` and `(10, 11)` the
compositor does not fail at all — it completes and returns a full output grid,
so it does not fail with a `ShapeMismatch` error. -/
theorem generate_virtual_he_accepts_mismatched_shapes :
    (generate_virtual_he ⟨10, 10, fun _ _ => 0⟩ ⟨10, 11, fun _ _ => 0⟩ 2.5).isSome = true := by
  rw [generate_virtual_he, if_pos (by decide)]
  rfl

/-- C1 amended: `generate_virtual_he` performs no shape-mismatch check and has
no `ShapeMismatch` error path.  It completes (producing an output of the
nucleus shape) exactly when every index of the nucleus shape is in bounds for
the eosin grid — in particular it completes on shapes `(10, 10)` and
`(10, 11)` — and otherwise it panics during the per-pixel loop (out-of-bounds
`eosin[[i, j]]`) rather than failing fast. -/
theorem generate_virtual_he_no_shape_check (nucleus eosin : Array2) (k : ℝ) :
    (generate_virtual_he nucleus eosin k).isSome = true
      ↔ ∀ i < nucleus.nrows, ∀ j < nucleus.ncols,
          i < eosin.nrows ∧ j < eosin.ncols := by
  rw [generate_virtual_he]
  by_cases h : ∀ i < nucleus.nrows, ∀ j < nucleus.ncols, i < eosin.nrows ∧ j < eosin.ncols
  · rw [if_pos h]
    simpa using h
  · rw [if_neg h]
    simpa using h

/-- C2: per pixel and output channel, the compositor computes exactly
`exp(-beta[0][c] * nucleus[i,j] * k) * exp(-beta[1][c] * eosin[i,j] * k)`,
with attenuation rows `(0.860, 1.000, 0.300)` (hematoxylin) and
`(0.050, 1.000, 0.544)` (eosin). -/
theorem rgb_formula_and_beta_constants :
    (∀ (nucleus eosin : Array2) (k : ℝ) (i j : ℕ) (channel : Fin 3),
        rgbFloat nucleus eosin k i j channel
          = Real.exp (-beta_values 0 channel * nucleus.val i j * k)
            * Real.exp (-beta_values 1 channel * eosin.val i j * k))
      ∧ beta_values 0 0 = 0.860 ∧ beta_values 0 1 = 1.000 ∧ beta_values 0 2 = 0.300
      ∧ beta_values 1 0 = 0.050 ∧ beta_values 1 1 = 1.000 ∧ beta_values 1 2 = 0.544 := by
  refine ⟨fun nucleus eosin k i j channel => ?_, rfl, rfl, rfl, rfl, rfl, rfl⟩
  fin_cases channel <;> rfl

/-- C4: for normalized inputs in `[0, 1]` and `k > 0`, every 8-bit channel
value of the composed output lies in `[0, 255]`. -/
theorem composition_range (nucleus eosin : Array2) (k : ℝ) (hk : 0 < k)
    (hn : ∀ i j, 0 ≤ nucleus.val i j ∧ nucleus.val i j ≤ 1)
    (he : ∀ i j, 0 ≤ eosin.val i j ∧ eosin.val i j ≤ 1)
    (g : ℕ → ℕ → Fin 3 → ℕ)
    (hg : generate_virtual_he nucleus eosin k = some g) :
    ∀ (i j : ℕ) (channel : Fin 3), 0 ≤ g i j channel ∧ g i j channel ≤ 255 := by
  intro i j channel
  rw [generate_virtual_he] at hg
  split at hg
  · obtain rfl : (fun i j channel => quantize (rgbFloat nucleus eosin k i j channel)) = g := by
      injection hg
    exact ⟨Nat.zero_le _, quantize_le_255 _⟩
  · exact absurd hg (by simp)

/-- Witness for C4 at `1 × 1` all-zero grids with `k = 1`. -/
theorem composition_range_witness :
    0 ≤ (fun i j (channel : Fin 3) =>
        quantize (rgbFloat ⟨1, 1, fun _ _ => 0⟩ ⟨1, 1, fun _ _ => 0⟩ 1 i j channel)) 0 0 0
      ∧ (fun i j (channel : Fin 3) =>
        quantize (rgbFloat ⟨1, 1, fun _ _ => 0⟩ ⟨1, 1, fun _ _ => 0⟩ 1 i j channel)) 0 0 0 ≤ 255 :=
  composition_range ⟨1, 1, fun _ _ => 0⟩ ⟨1, 1, fun _ _ => 0⟩ 1 one_pos
    (fun i j => by norm_num) (fun i j => by norm_num) _
    (by rw [generate_virtual_he, if_pos (by decide)]) 0 0 0

/-- C3: for every non-empty grid and percentile in `(0, 100]`, the selected
threshold is the value at index `min(floor(p/100 * N), N-1)` of the
ascending-sorted pixel values; for the grid of the 100000 distinct values
`0..99999` and `p = 99.999` the index is 99999, the threshold is the maximum
value 99999, and the normalized output attains maximum exactly `1.0`. -/
theorem percentile_threshold_selection :
    (∀ (image : List ℚ) (p : ℚ) (s : List ℚ), image ≠ [] → 0 < p → p ≤ 100 →
        s.Sorted (· ≤ ·) → List.Perm image s →
        max_intensity image p
          = some (s.getD
              (min (⌊p / 100 * (image.length : ℚ)⌋).toNat (image.length - 1)) 0))
      ∧ max_intensity ((List.range 100000).map (Nat.cast : ℕ → ℚ)) 99.999 = some 99999
      ∧ ∃ out,
          apply_histogram_scaling ((List.range 100000).map (Nat.cast : ℕ → ℚ)) 99.999
            = some out ∧ (∀ v ∈ out, v ≤ 1) ∧ 1 ∈ out := by
  have huniv : ∀ (image : List ℚ) (p : ℚ) (s : List ℚ), image ≠ [] → 0 < p → p ≤ 100 →
      s.Sorted (· ≤ ·) → List.Perm image s →
      max_intensity image p
        = some (s.getD
            (min (⌊p / 100 * (image.length : ℚ)⌋).toNat (image.length - 1)) 0) := by
    intro image p s himg hp0 hp100 hs hperm
    have hsort : sortPixels image = s :=
      List.eq_of_perm_of_sorted ((List.perm_insertionSort _ image).trans hperm)
        (List.sorted_insertionSort _ image) hs
    have hlen : s.length = image.length := hperm.length_eq.symm
    have hne : s.isEmpty = false := by
      rw [List.isEmpty_eq_false]
      intro h
      apply himg
      rw [← List.length_eq_zero, ← hlen, h]
      rfl
    simp only [max_intensity, hsort, hne, hlen]
    rfl
  have hglen : ((List.range 100000).map (Nat.cast : ℕ → ℚ)).length = 100000 := by simp
  have hgsorted : ((List.range 100000).map (Nat.cast : ℕ → ℚ)).Sorted (· ≤ ·) := by
    refine List.Pairwise.map _ ?_ (List.pairwise_lt_range 100000)
    intro a b h
    exact_mod_cast h.le
  have hmax : max_intensity ((List.range 100000).map (Nat.cast : ℕ → ℚ)) 99.999
      = some 99999 := by
    have h := huniv ((List.range 100000).map (Nat.cast : ℕ → ℚ)) 99.999
      ((List.range 100000).map (Nat.cast : ℕ → ℚ))
      (by apply List.ne_nil_of_length_pos; rw [hglen]; norm_num)
      (by norm_num) (by norm_num) hgsorted (List.Perm.refl _)
    rw [h, hglen]
    have harg : (99.999 : ℚ) / 100 * ((100000 : ℕ) : ℚ) = ((99999 : ℤ) : ℚ) := by norm_num
    rw [harg, Int.floor_intCast]
    have hidx : min (99999 : ℤ).toNat (100000 - 1) = 99999 := by omega
    rw [hidx, List.getD_eq_getElem?_getD, List.getElem?_map,
      List.getElem?_range (by norm_num)]
    rfl
  refine ⟨huniv, hmax,
    ⟨((List.range 100000).map (Nat.cast : ℕ → ℚ)).map (scale_pixel 99999), ?_, ?_, ?_⟩⟩
  · rw [apply_histogram_scaling, hmax, Option.map_some']
  · intro v hv
    obtain ⟨w, hw, rfl⟩ := List.mem_map.mp hv
    exact min_le_right _ _
  · apply List.mem_map.mpr
    refine ⟨(99999 : ℚ), List.mem_map.mpr ⟨99999, List.mem_range.mpr (by norm_num), ?_⟩, ?_⟩
    · norm_num
    · norm_num [scale_pixel]

/-- Witness for C3 at the grid `[2, 1]` with percentile 50. -/
theorem percentile_threshold_selection_witness :
    max_intensity [(2 : ℚ), 1] 50 = some 2 := by
  have h := percentile_threshold_selection.1 [(2 : ℚ), 1] 50 [1, 2] (by simp)
    (by norm_num) (by norm_num)
    (by norm_num [List.sorted_cons])
    (List.Perm.swap 1 2 [])
  rw [h]
  have harg : (50 : ℚ) / 100 * (([(2 : ℚ), 1].length : ℕ) : ℚ) = ((1 : ℤ) : ℚ) := by norm_num
  rw [harg, Int.floor_intCast]
  norm_num [List.getD]

/-- Numeric bound used for the known-value scenario. -/
theorem exp_215_lt : Real.exp 2.15 < 8.7 := by
  have h1 : Real.exp 1 < 2.7182818286 := Real.exp_one_lt_d9
  have hp : (0 : ℝ) < Real.exp 0.15 := Real.exp_pos _
  have hp1 : (0 : ℝ) < Real.exp 1 := Real.exp_pos _
  have h2 : (0.85 : ℝ) ≤ (Real.exp 0.15)⁻¹ := by
    have h := Real.add_one_le_exp (-0.15 : ℝ)
    rw [Real.exp_neg] at h
    linarith
  have h4 : Real.exp 0.15 ≤ 1 / 0.85 := by
    rw [le_div_iff (by norm_num)]
    calc Real.exp 0.15 * 0.85 ≤ Real.exp 0.15 * (Real.exp 0.15)⁻¹ :=
          mul_le_mul_of_nonneg_left h2 hp.le
      _ = 1 := mul_inv_cancel₀ (ne_of_gt hp)
  have h3 : Real.exp 2.15 = Real.exp 1 * Real.exp 1 * Real.exp 0.15 := by
    rw [← Real.exp_add, ← Real.exp_add]
    norm_num
  rw [h3]
  nlinarith [h1, h4, hp, hp1]

/-- Numeric bound used for the known-value scenario. -/
theorem exp_215_gt : (8.5 : ℝ) < Real.exp 2.15 := by
  have h1 : (2.7182818283 : ℝ) < Real.exp 1 := Real.exp_one_gt_d9
  have h2 : (1.075 : ℝ) ≤ Real.exp 0.075 := by
    have := Real.add_one_le_exp (0.075 : ℝ)
    linarith
  have hp1 : (0 : ℝ) < Real.exp 1 := Real.exp_pos _
  have hp2 : (0 : ℝ) < Real.exp 0.075 := Real.exp_pos _
  have h3 : Real.exp 2.15
      = Real.exp 1 * Real.exp 1 * (Real.exp 0.075 * Real.exp 0.075) := by
    rw [← Real.exp_add, ← Real.exp_add, ← Real.exp_add]
    norm_num
  have e2 : (2.7182818283 : ℝ) * 2.7182818283 < Real.exp 1 * Real.exp 1 := by nlinarith
  have e3 : (1.075 : ℝ) * 1.075 ≤ Real.exp 0.075 * Real.exp 0.075 := by nlinarith
  rw [h3]
  calc (8.5 : ℝ) < 2.7182818283 * 2.7182818283 * (1.075 * 1.075) := by norm_num
    _ ≤ 2.7182818283 * 2.7182818283 * (Real.exp 0.075 * Real.exp 0.075) :=
        mul_le_mul_of_nonneg_left e3 (by norm_num)
    _ < Real.exp 1 * Real.exp 1 * (Real.exp 0.075 * Real.exp 0.075) :=
        mul_lt_mul_of_pos_right e2 (mul_pos hp2 hp2)

/-- The red-channel value of the known-value scenario:
`floor(exp(-2.15) * 255) = 29`. -/
theorem floor_255_exp_neg215 : ⌊Real.exp (-2.15) * 255⌋ = 29 := by
  have hlt := exp_215_lt
  have hgt := exp_215_gt
  have hp : (0 : ℝ) < Real.exp 2.15 := Real.exp_pos _
  have hip : (0 : ℝ) < (Real.exp 2.15)⁻¹ := inv_pos.mpr hp
  have hinv : Real.exp 2.15 * (Real.exp 2.15)⁻¹ = 1 := mul_inv_cancel₀ (ne_of_gt hp)
  rw [Real.exp_neg, Int.floor_eq_iff]
  constructor
  · push_cast
    nlinarith [mul_pos (sub_pos.mpr hlt) hip, hinv]
  · push_cast
    nlinarith [mul_pos (sub_pos.mpr hgt) hip, hinv]

/-- C5: a pixel with nucleus and eosin intensity 0 yields all three 8-bit
channels equal to 255 for any `k`; a pixel with nucleus intensity 1, eosin
intensity 0 and `k = 2.5` yields red channel `floor(exp(-2.15) * 255) = 29`. -/
theorem known_value_scenarios :
    (∀ (nucleus eosin : Array2) (k : ℝ) (i j : ℕ) (channel : Fin 3),
        nucleus.val i j = 0 → eosin.val i j = 0 →
        quantize (rgbFloat nucleus eosin k i j channel) = 255)
      ∧ (∀ (nucleus eosin : Array2) (i j : ℕ),
        nucleus.val i j = 1 → eosin.val i j = 0 →
        quantize (rgbFloat nucleus eosin 2.5 i j 0) = 29) := by
  constructor
  · intro nucleus eosin k i j channel hn he
    have h1 : rgbFloat nucleus eosin k i j channel = 1 := by
      fin_cases channel <;> simp [rgbFloat, hn, he, Real.exp_zero]
    rw [h1]
    norm_num [quantize, f32_as_u8]
    omega
  · intro nucleus eosin i j hn he
    have h1 : rgbFloat nucleus eosin 2.5 i j 0 = Real.exp (-2.15) := by
      show Real.exp (-beta_values 0 0 * nucleus.val i j * 2.5) *
          Real.exp (-beta_values 1 0 * eosin.val i j * 2.5) = _
      rw [hn, he, show beta_values 0 0 = 0.860 from rfl,
        show beta_values 1 0 = 0.050 from rfl]
      norm_num
    rw [h1]
    have hb : Real.exp (-2.15) * 255 ≤ 255 := by
      have h := Real.exp_le_one_iff.mpr (by norm_num : (-2.15 : ℝ) ≤ 0)
      nlinarith [Real.exp_pos (-2.15 : ℝ)]
    unfold quantize f32_as_u8
    rw [min_eq_left hb, floor_255_exp_neg215]
    rfl

/-- Witness for C5 at concrete constant `1 × 1` grids. -/
theorem known_value_scenarios_witness :
    quantize (rgbFloat ⟨1, 1, fun _ _ => 0⟩ ⟨1, 1, fun _ _ => 0⟩ 1 0 0 0) = 255
      ∧ quantize (rgbFloat ⟨1, 1, fun _ _ => 1⟩ ⟨1, 1, fun _ _ => 0⟩ 2.5 0 0 0) = 29 :=
  ⟨known_value_scenarios.1 _ _ 1 0 0 0 rfl rfl,
   known_value_scenarios.2 _ _ 0 0 rfl rfl⟩

end VirtualHE
